import Mathlib

/-!
Verification of the order/contract reconciliation logic of the
photography-studio admin console (component `OrdersManagement`).

The TypeScript source is embedded shallowly:

* JS strings are `String`; `s.normalize('NFD').replace(/\p{Diacritic}/gu,
  '').toLowerCase().trim()` is modelled by `normalize`, with the diacritic
  stripping restricted to the Latin repertoire the application actually
  uses (Spanish/Portuguese accented letters).
* `x || y` on strings (falsy = empty) is `strOr`; `Number(a ?? b ?? d)`
  on numeric fields is `numOr2` / `numOr`; monetary amounts are `Int`.
* `uid()` (random id generation) is modelled by an explicit counter
  threaded through the functions that allocate ids (`uidStr`).
* Firestore collections are lists of documents; lookups keyed by id or
  normalized email become list searches with the same first/last-match
  semantics as the `Record` maps built by the component.
-/

namespace OrdersManagement

/-! ### String normalization (`normalize` in the source) -/

/-- NFD-decompose-and-drop-diacritics for the Latin letters used by the
app; maps a precomposed accented letter to its base letter, which is what
`normalize('NFD').replace(/\p{Diacritic}/gu, '')` produces. -/
def stripDiacritic (c : Char) : Char :=
  match c with
  | 'á' | 'à' | 'â' | 'ã' | 'ä' => 'a'
  | 'Á' | 'À' | 'Â' | 'Ã' | 'Ä' => 'A'
  | 'é' | 'è' | 'ê' | 'ë' => 'e'
  | 'É' | 'È' | 'Ê' | 'Ë' => 'E'
  | 'í' | 'ì' | 'î' | 'ï' => 'i'
  | 'Í' | 'Ì' | 'Î' | 'Ï' => 'I'
  | 'ó' | 'ò' | 'ô' | 'õ' | 'ö' => 'o'
  | 'Ó' | 'Ò' | 'Ô' | 'Õ' | 'Ö' => 'O'
  | 'ú' | 'ù' | 'û' | 'ü' => 'u'
  | 'Ú' | 'Ù' | 'Û' | 'Ü' => 'U'
  | 'ç' => 'c'
  | 'Ç' => 'C'
  | 'ñ' => 'n'
  | 'Ñ' => 'N'
  | _ => c

def isWhite (c : Char) : Bool :=
  c = ' ' || c = '\t' || c = '\n' || c = '\r'

def trimChars (l : List Char) : List Char :=
  ((l.dropWhile isWhite).reverse.dropWhile isWhite).reverse

def lowerChars (l : List Char) : List Char :=
  l.map Char.toLower

/-- `normalize` of the source: strip diacritics, lowercase, trim. -/
def normalize (s : String) : String :=
  String.mk (trimChars (lowerChars (s.data.map stripDiacritic)))

/-- `String(x).toLowerCase().trim()` (no diacritic stripping), used for
email keys. -/
def lowerTrim (s : String) : String :=
  String.mk (trimChars (lowerChars s.data))

/-- does `cs` start with `pat`? (helper for substring containment) -/
def startsWithChars : List Char → List Char → Bool
  | [], _ => true
  | _ :: _, [] => false
  | p :: ps, c :: cs => decide (p = c) && startsWithChars ps cs

/-- does the character list contain `pat` as a contiguous run? -/
def containsChars (pat : List Char) : List Char → Bool
  | [] => startsWithChars pat []
  | c :: cs => startsWithChars pat (c :: cs) || containsChars pat cs

/-- JS `s.includes(pat)`. -/
def strIncludes (s pat : String) : Bool :=
  containsChars pat.data s.data

/-- JS `a || b` for strings (empty string is falsy). -/
def strOr (a : Option String) (b : String) : String :=
  match a with
  | some s => if s = "" then b else s
  | none => b

/-- JS `Number(a ?? d)` for numeric document fields. -/
def numOr (a : Option Int) (d : Int) : Int := a.getD d

/-- JS `Number(a ?? b ?? d)`. -/
def numOr2 (a b : Option Int) (d : Int) : Int :=
  match a with
  | some x => x
  | none => match b with | some y => y | none => d

/-- JS `(Number(a ?? b ?? 1) || 1)`: zero (and NaN) falls back to 1. -/
def qtyOrOne (a b : Option Int) : Int :=
  let v := numOr2 a b 1
  if v = 0 then 1 else v

/-- `uid()` modelled deterministically from a counter. -/
def uidStr (n : Nat) : String := "uid-" ++ toString n

/-! ### Workflow data model -/

structure WorkflowTask where
  id : String
  title : String
  done : Bool
  due : Option String := none
  note : Option String := none
deriving Repr, DecidableEq

structure WorkflowCategory where
  id : String
  name : String
  tasks : List WorkflowTask
deriving Repr, DecidableEq

/-- `normalize(name).includes('entrega')`. -/
def isDeliveryName (s : String) : Bool :=
  strIncludes (normalize s) "entrega"

def isDeliveryCat (c : WorkflowCategory) : Bool :=
  isDeliveryName c.name

/-- tasks of the first delivery category of a workflow ([] when none),
the tasks `ensureDeliveryTasks` extends. -/
def firstDeliveryTasks (wf : List WorkflowCategory) : List WorkflowTask :=
  match wf.find? isDeliveryCat with
  | some c => c.tasks
  | none => []

/-- `Entregar {n}` -/
def mkTitle (n : String) : String := "Entregar " ++ n

/-- normalized-title comparison against `Entregar {n}` used by the
duplicate check in `ensureDeliveryTasks`. -/
def normTitleEq (n : String) (t : WorkflowTask) : Bool :=
  decide (normalize t.title = normalize (mkTitle n))

/-- the fresh task `{ id: uid(), title, done: false }`. -/
def newDeliveryTask (n : String) (ctr : Nat) : WorkflowTask :=
  ⟨uidStr ctr, mkTitle n, false, none, none⟩

/-- one iteration of the `productNames.forEach` body of
`ensureDeliveryTasks`: push a fresh not-done task unless a task with the
same normalized title already exists. -/
def addDeliveryTask (tasks : List WorkflowTask) (n : String) (ctr : Nat) :
    List WorkflowTask × Nat :=
  if tasks.any (normTitleEq n) then (tasks, ctr)
  else (tasks ++ [newDeliveryTask n ctr], ctr + 1)

/-- the whole `productNames.forEach` loop. -/
def addDeliveryTasks (tasks : List WorkflowTask) (names : List String) (ctr : Nat) :
    List WorkflowTask × Nat :=
  match names with
  | [] => (tasks, ctr)
  | n :: rest =>
      let p := addDeliveryTask tasks n ctr
      addDeliveryTasks p.1 rest p.2

/-- `ensureDeliveryTasks(base, productNames)`: locate the first category
whose normalized name contains "entrega" (append a fresh
"Entrega de productos" category at the end when none exists) and append
one not-done task per product name whose normalized title is not yet
present.  The JS deep clone is implicit: the embedding is pure. -/
def ensureDeliveryTasks (base : List WorkflowCategory) (productNames : List String)
    (ctr : Nat) : List WorkflowCategory × Nat :=
  match base with
  | [] =>
      let p := addDeliveryTasks [] productNames (ctr + 1)
      ([{ id := uidStr ctr, name := "Entrega de productos", tasks := p.1 }], p.2)
  | c :: rest =>
      if isDeliveryCat c then
        let p := addDeliveryTasks c.tasks productNames ctr
        ({ c with tasks := p.1 } :: rest, p.2)
      else
        let p := ensureDeliveryTasks rest productNames ctr
        (c :: p.1, p.2)

/-! ### Document data model (orders, contracts) -/

/-- a line item as stored on an order document (`OrderLineItem`); all
fields optional, snake/camel variants tolerated. -/
structure OrderLineItem where
  product_id : Option String := none
  productId : Option String := none
  name : Option String := none
  qty : Option Int := none
  quantity : Option Int := none
  price : Option Int := none
  total : Option Int := none
deriving Repr, DecidableEq

/-- a purchased store item on a contract document. -/
structure StoreItem where
  name : Option String := none
  productName : Option String := none
  title : Option String := none
  quantity : Option Int := none
  qty : Option Int := none
  price : Option Int := none
  total : Option Int := none
  image_url : Option String := none
deriving Repr, DecidableEq

/-- a contract document (fields read by the component). -/
structure Contract where
  id : String
  clientName : Option String := none
  client_name : Option String := none
  clientEmail : Option String := none
  client_email : Option String := none
  storeItems : List StoreItem := []
  workflow : Option (List WorkflowCategory) := none
  depositPaid : Bool := false
  travelFee : Option Int := none
  paymentMethod : Option String := none
  contractDate : Option String := none
  createdAt : Option String := none
deriving Repr, DecidableEq

/-- an order document / in-memory `OrderItem` (fields read by the
component; the camelCase fields written by the loader are included since
they come back on the next fetch). -/
structure OrderDoc where
  id : String
  customer_name : Option String := none
  customer_email : Option String := none
  payment_method : Option String := none
  notes : Option String := none
  items : Option (List OrderLineItem) := none
  total : Option Int := none
  totalAmount : Option Int := none
  created_at : Option String := none
  createdAt : Option String := none
  status : Option String := none
  workflow : Option (List WorkflowCategory) := none
  contractId : Option String := none
  depositPaid : Bool := false
  deliveredAt : Option String := none
deriving Repr, DecidableEq

/-- `String((c.clientEmail || c.client_email || '').toLowerCase()).trim()`,
the key of the `contractsByEmail` map. -/
def contractEmailKey (c : Contract) : String :=
  lowerTrim (strOr c.clientEmail (strOr c.client_email ""))

/-- lookup in the `contractsByEmail` record: only contracts with a
non-empty key are entered, later entries overwrite earlier ones. -/
def lastWithEmailKey (contracts : List Contract) (key : String) : Option Contract :=
  (contracts.filter fun c =>
    decide (contractEmailKey c = key) && decide (contractEmailKey c ≠ "")).getLast?

/-- email resolution: `contractsByEmail[key] || Object.values(contractsMap)
.find(x => emailKey(x) === key) || null`. -/
def resolveByEmail (contracts : List Contract) (key : String) : Option Contract :=
  match lastWithEmailKey contracts key with
  | some c => some c
  | none => contracts.find? fun c => decide (contractEmailKey c = key)

/-- contract resolution at the top of `getDisplayItems` (and repeated in
`saveWorkflow`, `markDeliveryPaid`, `resetDeliveryPaid`): explicit
`contractId` first, else normalized customer email. -/
def resolveContract (contracts : List Contract) (o : OrderDoc) : Option Contract :=
  let byId := match o.contractId with
    | none => none
    | some cid => if cid = "" then none else contracts.find? fun c => decide (c.id = cid)
  match byId with
  | some c => some c
  | none =>
      match o.customer_email with
      | none => none
      | some e => if e = "" then none else resolveByEmail contracts (lowerTrim e)

/-! ### Display reconciler (`getDisplayItems`) -/

/-- the `{name, qty, price, total}` rows `getDisplayItems` returns. -/
structure DisplayRow where
  name : String
  qty : Int
  price : Int
  total : Int
deriving Repr, DecidableEq

/-- `si.name || si.productName || si.title || ''` etc.: the canonical
contract item built from a store item. -/
structure ContractItem where
  name : String
  quantity : Int
  price : Int
  total : Int
deriving Repr, DecidableEq

def canonItem (si : StoreItem) : ContractItem :=
  let q := numOr2 si.quantity si.qty 1
  let p := numOr si.price 0
  { name := strOr si.name (strOr si.productName (strOr si.title ""))
  , quantity := q
  , price := p
  , total := numOr si.total (p * q) }

/-- `oi.name || oi.product_id || oi.productId || ''`, the string an order
line item is matched (and displayed as an extra) by. -/
def lineKey (oi : OrderLineItem) : String :=
  strOr oi.name (strOr oi.product_id (strOr oi.productId ""))

/-- boolean membership mirroring `Set.has` on normalized contract names. -/
def memNorm (key : String) : List String → Bool
  | [] => false
  | s :: rest => decide (s = key) || memNorm key rest

/-- one row of the `merged` list: prefer the first order item whose
normalized key matches the contract item's normalized name, else fall
back to the contract item itself. -/
def mergeRow (orderItems : List OrderLineItem) (ci : ContractItem) : DisplayRow :=
  match orderItems.find? (fun oi => decide (normalize (lineKey oi) = normalize ci.name)) with
  | some m =>
      let q := numOr2 m.qty m.quantity ci.quantity
      let p := numOr m.price ci.price
      { name := strOr m.name ci.name, qty := q, price := p, total := numOr m.total (p * q) }
  | none => { name := ci.name, qty := ci.quantity, price := ci.price, total := ci.total }

/-- the row built for an order item that matches no contract item (and
also the shape of the no-contract fallback list). -/
def extraRow (e : OrderLineItem) : DisplayRow :=
  let q := numOr2 e.qty e.quantity 1
  let p := numOr e.price 0
  { name := lineKey e, qty := q, price := p, total := numOr e.total (p * q) }

/-- the branch of `getDisplayItems` taken when a contract with purchased
items is resolved: merged canonical rows followed by the extras. -/
def displayWithContract (c : Contract) (orderItems : List OrderLineItem) : List DisplayRow :=
  let contractItems := c.storeItems.map canonItem
  let contractNames := contractItems.map fun ci => normalize ci.name
  let merged := contractItems.map (mergeRow orderItems)
  let extras :=
    (orderItems.filter fun oi => !(memNorm (normalize (lineKey oi)) contractNames)).map extraRow
  merged ++ extras

/-- the no-contract fallback: order items normalized to a single shape. -/
def displayNoContract (orderItems : List OrderLineItem) : List DisplayRow :=
  orderItems.map extraRow

/-- `getDisplayItems(o)` against a snapshot of the contracts collection. -/
def getDisplayItems (contracts : List Contract) (o : OrderDoc) : List DisplayRow :=
  let orderItems := o.items.getD []
  match resolveContract contracts o with
  | some c => if c.storeItems.isEmpty then displayNoContract orderItems
              else displayWithContract c orderItems
  | none => displayNoContract orderItems

/-! ### Workflow persistence: save merge, payment toggles -/

/-- the delivery-completion merge `saveWorkflow` and the per-task
checkbox handler both apply before persisting the contract workflow:
every task of every delivery category of the (ensured) contract workflow
takes its `done` flag from the first task with the same normalized title
in the first delivery category of the order's workflow; unmatched tasks
keep their flag. -/
def mergeDeliveryDone (ordWf contractWf : List WorkflowCategory) : List WorkflowCategory :=
  match ordWf.find? isDeliveryCat with
  | none => contractWf
  | some ordCat =>
      contractWf.map fun cat =>
        if isDeliveryCat cat then
          { cat with tasks := cat.tasks.map fun t =>
              match ordCat.tasks.find? (fun ot => decide (normalize ot.title = normalize t.title)) with
              | some m => { t with done := m.done }
              | none => t }
        else cat

/-- `(contract.workflow && contract.workflow.length) ? contract.workflow : []`. -/
def contractBaseWf (c : Contract) : List WorkflowCategory :=
  match c.workflow with
  | some w => w
  | none => []

/-- the contract workflow persisted by `saveWorkflow` (and by the
checkbox handler): ensure delivery tasks on the contract's own workflow,
then merge the order's delivery completion states into it. -/
def saveWorkflowContractWf (ordWf : List WorkflowCategory) (c : Contract)
    (names : List String) (ctr : Nat) : List WorkflowCategory :=
  mergeDeliveryDone ordWf (ensureDeliveryTasks (contractBaseWf c) names ctr).1

/-- order-side state touched by `markDeliveryPaid` / `resetDeliveryPaid`. -/
structure OrderState where
  workflow : List WorkflowCategory
  depositPaid : Bool
  status : String
  deliveredAt : Option String
deriving Repr, DecidableEq

/-- `(workflow || []).map(cat => ({...cat, tasks: cat.tasks.map(t =>
({...t, done: entrega(cat) ? b : t.done}))}))`. -/
def setDeliveryDone (b : Bool) (wf : List WorkflowCategory) : List WorkflowCategory :=
  wf.map fun cat =>
    { cat with tasks := cat.tasks.map fun t =>
        { t with done := if isDeliveryCat cat then b else t.done } }

/-- the contract-side variant (`merged.forEach(cat => { if (entrega)
cat.tasks = cat.tasks.map(t => ({...t, done: b})) })`). -/
def setDeliveryDoneContract (b : Bool) (wf : List WorkflowCategory) : List WorkflowCategory :=
  wf.map fun cat =>
    if isDeliveryCat cat then
      { cat with tasks := cat.tasks.map fun t => { t with done := b } }
    else cat

/-- order-document effect of `markDeliveryPaid`. -/
def markDeliveryPaidOrder (s : OrderState) (now : String) : OrderState :=
  { workflow := setDeliveryDone true s.workflow
  , depositPaid := true
  , status := "completado"
  , deliveredAt := some now }

/-- order-document effect of `resetDeliveryPaid`. -/
def resetDeliveryPaidOrder (s : OrderState) : OrderState :=
  { workflow := setDeliveryDone false s.workflow
  , depositPaid := false
  , status := "pendiente"
  , deliveredAt := none }

/-- contract-document effect of `markDeliveryPaid`. -/
def markDeliveryPaidContract (c : Contract) (names : List String) (ctr : Nat) : Contract :=
  { c with
    workflow := some (setDeliveryDoneContract true (ensureDeliveryTasks (contractBaseWf c) names ctr).1)
  , depositPaid := true }

/-- contract-document effect of `resetDeliveryPaid`. -/
def resetDeliveryPaidContract (c : Contract) (names : List String) (ctr : Nat) : Contract :=
  { c with
    workflow := some (setDeliveryDoneContract false (ensureDeliveryTasks (contractBaseWf c) names ctr).1)
  , depositPaid := false }

/-! ### Order store loader (`fetchOrders`, contract-ensuring phase) -/

/-- an item of the order document created from a contract
(`storeItems.map(si => ...)` in `fetchOrders`; note `si.name || si.title`,
without `productName`, and the `|| 1` zero-guard on the quantity). -/
structure CreatedItem where
  name : String
  quantity : Int
  price : Int
  total : Int
  image_url : Option String := none
deriving Repr, DecidableEq

def itemForOrder (si : StoreItem) : CreatedItem :=
  let q := qtyOrOne si.quantity si.qty
  let p := numOr si.price 0
  { name := strOr si.name (strOr si.title "")
  , quantity := q
  , price := p
  , total := numOr si.total (p * q)
  , image_url := si.image_url }

/-- the `orderData` document written by `addDoc(collection(db,'orders'),
orderData)` for a contract with no existing orders. -/
structure NewOrderData where
  clientName : String
  clientEmail : String
  items : List CreatedItem
  totalAmount : Int
  status : String
  paymentMethod : String
  contractId : String
  createdAt : String
deriving Repr, DecidableEq

def orderFromContract (c : Contract) (now : String) : NewOrderData :=
  let itemsForOrder := c.storeItems.map itemForOrder
  { clientName := strOr c.clientName (strOr c.client_name "")
  , clientEmail := strOr c.clientEmail (strOr c.client_email "")
  , items := itemsForOrder
  , totalAmount := (itemsForOrder.map fun it => it.total).sum + numOr c.travelFee 0
  , status := "pending"
  , paymentMethod := strOr c.paymentMethod ""
  , contractId := c.id
  , createdAt := strOr c.contractDate (strOr c.createdAt now) }

/-- the in-memory `OrderItem` built for a freshly created order
(`{ id: refDoc.id, ...orderData, thumbnail }`): the component reads
`customer_name`/`customer_email`/`total`/`workflow`, none of which the
spread sets, so they stay absent. -/
def toOrderDoc (newId : String) (d : NewOrderData) : OrderDoc :=
  { id := newId
  , items := some (d.items.map fun ci =>
      { name := some ci.name, quantity := some ci.quantity
      , price := some ci.price, total := some ci.total })
  , totalAmount := some d.totalAmount
  , createdAt := some d.createdAt
  , status := some d.status
  , workflow := none
  , contractId := some d.contractId }

/-- `{ name: it.name || it.product_id || '', qty, price, total }` pushed
while aggregating the existing orders of a contract. -/
def aggLineOf (it : OrderLineItem) : OrderLineItem :=
  let q := qtyOrOne it.quantity it.qty
  let p := numOr it.price 0
  { name := some (strOr it.name (strOr it.product_id ""))
  , qty := some q, price := some p, total := some (numOr it.total (p * q)) }

/-- the synthetic aggregated order view built when order rows tagged with
the contract id already exist in the database (thumbnail resolution,
which only affects the image shown, is not modelled). -/
def aggregateFromExisting (c : Contract) (existing : List OrderDoc) (first : OrderDoc)
    (now : String) : OrderDoc :=
  let aggItems := existing.flatMap fun eo => (eo.items.getD []).map aggLineOf
  { id := first.id
  , customer_name := some (strOr c.clientName (strOr c.client_name ""))
  , customer_email := some (strOr c.clientEmail (strOr c.client_email ""))
  , items := some aggItems
  , total := some ((aggItems.map fun it => numOr it.total 0).sum)
  , created_at := some (strOr first.createdAt (strOr first.created_at now))
  , status := some (strOr first.status "pendiente")
  , workflow := c.workflow
  , contractId := some c.id }

/-- remove a leading "contract-" tag (the `.replace` call on the key). -/
def dropContractTag (s : String) : String :=
  if startsWithChars "contract-".data s.data then String.mk (s.data.drop 9) else s

/-- `String(it.contractId || it.contract_id || it.contract)` with the
leading "contract-" tag removed: an order without a `contractId` yields
the string "undefined" (the `contract_id`/`contract` legacy fields never
occur on the documents this code writes). -/
def contractKeyOf (o : OrderDoc) : String :=
  match o.contractId with
  | some s => if s = "" then "undefined" else dropContractTag s
  | none => "undefined"

def genOrderId (n : Nat) : String := "order-" ++ toString n

/-- accumulator of the per-contract loop: the synthetic/created order
views merged into the list, the documents actually written, and the id
supply for `addDoc`. -/
structure LoaderAcc where
  generated : List OrderDoc
  created : List NewOrderData
  ctr : Nat
deriving Repr, DecidableEq

/-- body of `for (const c of contractsList)` in `fetchOrders`. -/
def loaderStep (dbOrders items : List OrderDoc) (now : String)
    (acc : LoaderAcc) (c : Contract) : LoaderAcc :=
  if c.storeItems.isEmpty then acc
  else if items.any (fun it => decide (contractKeyOf it = c.id)) then acc
  else
    match dbOrders.filter (fun o => o.contractId == some c.id) with
    | [] =>
        let d := orderFromContract c now
        { generated := acc.generated ++ [toOrderDoc (genOrderId acc.ctr) d]
        , created := acc.created ++ [d]
        , ctr := acc.ctr + 1 }
    | first :: rest =>
        { acc with generated := acc.generated ++ [aggregateFromExisting c (first :: rest) first now] }

/-- the contract-ensuring phase of `fetchOrders`: `dbOrders` is the
`orders` collection (queried with `where('contractId','==',c.id)`),
`items` the fetched in-memory list the loop checks `existsInItems`
against. -/
def runContractsPhase (dbOrders items : List OrderDoc) (contracts : List Contract)
    (now : String) : LoaderAcc :=
  contracts.foldl (loaderStep dbOrders items now) ⟨[], [], 0⟩

/-! ### Status counts and filtering -/

/-- one per-status bucket of the `counts` memo
(`orders.filter(o => o.status === st).length`). -/
def countByStatus (orders : List OrderDoc) (st : String) : Nat :=
  (orders.filter fun o => o.status == some st).length

/-- the `todas` bucket. -/
def countTodas (orders : List OrderDoc) : Nat := orders.length

/-- the `filtered` memo: status filter and client/email search. -/
def filteredOrders (orders : List OrderDoc) (statusFilter search : String) : List OrderDoc :=
  orders.filter fun o =>
    (decide (statusFilter = "todas") || o.status == some statusFilter)
    && (decide (lowerTrim search = "")
        || strIncludes (String.mk (lowerChars (strOr o.customer_name "").data)) (lowerTrim search)
        || strIncludes (String.mk (lowerChars (strOr o.customer_email "").data)) (lowerTrim search))

/-! ### Concrete documents used by counterexamples and witnesses -/

/-- Claim C1 scenario: order item `{name:"album a", qty:1, price:50}`. -/
def o1cex : OrderDoc :=
  { id := "o1", contractId := some "c1"
  , items := some [{ name := some "album a", qty := some 1, price := some 50 }] }

/-- Claim C1 scenario: contract item `{name:"Album A", quantity:1, price:80}`. -/
def c1cex : Contract :=
  { id := "c1"
  , storeItems := [{ name := some "Album A", quantity := some 1, price := some 80 }] }

/-- C4 counterexample: two store items whose names normalize alike. -/
def c4cex : Contract :=
  { id := "c4"
  , storeItems := [{ name := some "Álbum", quantity := some 1, price := some 5 }
                  , { name := some "album", quantity := some 1, price := some 7 }] }

def o4cex : OrderDoc := { id := "o4", contractId := some "c4", items := some [] }

/-- C4 witness: store items with pairwise-distinct normalized names. -/
def c4wit : Contract :=
  { id := "c4w"
  , storeItems := [{ name := some "Álbum", quantity := some 1, price := some 5 }
                  , { name := some "Box", quantity := some 1, price := some 7 }] }

def o4wit : OrderDoc :=
  { id := "o4w", contractId := some "c4w"
  , items := some [{ name := some "album", price := some 10 }] }

/-- C5 counterexample: two order items matching one contract item. -/
def c5cex : Contract :=
  { id := "c5", storeItems := [{ name := some "Album", quantity := some 1, price := some 5 }] }

def o5cex : OrderDoc :=
  { id := "o5", contractId := some "c5"
  , items := some [{ name := some "Album", price := some 10 }
                  , { name := some "album", price := some 20 }] }

/-- C5 witness: an order item absent from the contract. -/
def c5wit : Contract :=
  { id := "c5w", storeItems := [{ name := some "Album", quantity := some 1, price := some 5 }] }

def o5wit : OrderDoc :=
  { id := "o5w", contractId := some "c5w"
  , items := some [{ name := some "Extra frame", qty := some 2, price := some 30 }] }

/-- C3 counterexample: the delivery category already holds two tasks with
the same normalized title. -/
def base3cex : List WorkflowCategory :=
  [⟨"b1", "Entrega", [⟨"x1", "Entregar X", true, none, none⟩, ⟨"x2", "entregar x", false, none, none⟩]⟩]

/-- C6 counterexample: order delivery category with two tasks whose
titles normalize alike but whose done flags differ. -/
def ordWf6 : List WorkflowCategory :=
  [⟨"oc1", "Entrega", [⟨"t1", "Entregar X", false, none, none⟩, ⟨"t2", "entregar x", true, none, none⟩]⟩]

def c6cex : Contract :=
  { id := "c6"
  , workflow := some [⟨"cc1", "Entrega", [⟨"u1", "Entregar X", true, none, none⟩]⟩] }

/-- C6 witness documents. -/
def ordWf6w : List WorkflowCategory :=
  [⟨"ow1", "Entrega", [⟨"w1", "Entregar Album", true, none, none⟩]⟩]

def c6wit : Contract :=
  { id := "c6w"
  , workflow := some [⟨"cw1", "Entrega de productos",
      [⟨"v1", "Entregar Album", false, none, none⟩, ⟨"v2", "Entregar Box", true, none, none⟩]⟩] }

/-- C7 counterexample: a delivery task already done before
`markDeliveryPaid`, so the roundtrip cannot restore it. -/
def s7cex : OrderState :=
  { workflow := [⟨"c1", "Entrega", [⟨"t1", "Entregar X", true, none, none⟩]⟩]
  , depositPaid := true, status := "completado", deliveredAt := some "earlier" }

/-- C7 witness: a state already in reset form. -/
def s7wit : OrderState :=
  { workflow := [⟨"c1", "Entrega", [⟨"t1", "Entregar A", false, none, none⟩]⟩,
                 ⟨"c2", "Edición", [⟨"t2", "Editar fotos", true, none, none⟩]⟩]
  , depositPaid := false, status := "pendiente", deliveredAt := none }

def c7wit : Contract := { id := "c7w" }

/-- C8 scenario contract: storeItems `[{name:"Album A", quantity:2,
price:100}]`. -/
def c8cex : Contract :=
  { id := "c8"
  , clientName := some "Ana", clientEmail := some "ana@x.com"
  , storeItems := [{ name := some "Album A", quantity := some 2, price := some 100 }] }

/-- the order document the first loader run creates for `c8cex`. -/
def c8doc : OrderDoc := toOrderDoc (genOrderId 0) (orderFromContract c8cex "t0")

/-- C9 witness: a workflow without a delivery category. -/
def base9 : List WorkflowCategory :=
  [⟨"c0", "Fotos", [⟨"t0", "Editar", true, none, none⟩]⟩]

/-! ### Lemmas about `addDeliveryTasks` -/

lemma isDeliveryCat_mk (c : WorkflowCategory) (ts : List WorkflowTask) :
    isDeliveryCat { c with tasks := ts } = isDeliveryCat c := rfl

lemma isDeliveryName_default : isDeliveryName "Entrega de productos" = true := by decide

lemma addDeliveryTask_any_mono (p : WorkflowTask → Bool) (tasks : List WorkflowTask)
    (n : String) (ctr : Nat) (h : tasks.any p = true) :
    (addDeliveryTask tasks n ctr).1.any p = true := by
  unfold addDeliveryTask
  split
  · exact h
  · simp only [List.any_append, h, Bool.true_or]

lemma addDeliveryTask_adds (tasks : List WorkflowTask) (n : String) (ctr : Nat) :
    (addDeliveryTask tasks n ctr).1.any (normTitleEq n) = true := by
  unfold addDeliveryTask
  split
  · assumption
  · simp only [List.any_append, Bool.or_eq_true]
    right
    simp [normTitleEq, newDeliveryTask]

lemma addDeliveryTasks_any_mono (p : WorkflowTask → Bool) :
    ∀ (names : List String) (tasks : List WorkflowTask) (ctr : Nat),
      tasks.any p = true → (addDeliveryTasks tasks names ctr).1.any p = true := by
  intro names
  induction names with
  | nil => intro tasks ctr h; exact h
  | cons n rest ih =>
      intro tasks ctr h
      exact ih _ _ (addDeliveryTask_any_mono p tasks n ctr h)

lemma addDeliveryTasks_all :
    ∀ (names : List String) (tasks : List WorkflowTask) (ctr : Nat) (n : String),
      n ∈ names → (addDeliveryTasks tasks names ctr).1.any (normTitleEq n) = true := by
  intro names
  induction names with
  | nil => intro _ _ _ h; cases h
  | cons m rest ih =>
      intro tasks ctr n hn
      rcases List.mem_cons.mp hn with h | h
      · subst h
        exact addDeliveryTasks_any_mono _ rest _ _ (addDeliveryTask_adds tasks n ctr)
      · exact ih _ _ n h

lemma addDeliveryTasks_noop :
    ∀ (names : List String) (tasks : List WorkflowTask) (ctr : Nat),
      (∀ n ∈ names, tasks.any (normTitleEq n) = true) →
      addDeliveryTasks tasks names ctr = (tasks, ctr) := by
  intro names
  induction names with
  | nil => intro tasks ctr _; rfl
  | cons m rest ih =>
      intro tasks ctr h
      have hm : addDeliveryTask tasks m ctr = (tasks, ctr) := by
        unfold addDeliveryTask
        rw [if_pos (h m (List.mem_cons_self m rest))]
      show addDeliveryTasks (addDeliveryTask tasks m ctr).1 rest (addDeliveryTask tasks m ctr).2 = _
      rw [hm]
      exact ih tasks ctr fun n hn => h n (List.mem_cons_of_mem m hn)

lemma addDeliveryTasks_shape :
    ∀ (names : List String) (tasks : List WorkflowTask) (ctr : Nat),
      ∃ nt, (addDeliveryTasks tasks names ctr).1 = tasks ++ nt ∧ ∀ t ∈ nt, t.done = false := by
  intro names
  induction names with
  | nil => intro tasks ctr; exact ⟨[], by simp [addDeliveryTasks], by simp⟩
  | cons m rest ih =>
      intro tasks ctr
      show ∃ nt, (addDeliveryTasks (addDeliveryTask tasks m ctr).1 rest (addDeliveryTask tasks m ctr).2).1 = _ ∧ _
      unfold addDeliveryTask
      split
      · exact ih tasks ctr
      · obtain ⟨nt, h1, h2⟩ := ih (tasks ++ [newDeliveryTask m ctr]) (ctr + 1)
        refine ⟨newDeliveryTask m ctr :: nt, ?_, ?_⟩
        · rw [h1, List.append_assoc]; rfl
        · intro t ht
          rcases List.mem_cons.mp ht with h | h
          · subst h; rfl
          · exact h2 t h

lemma normTitleEq_ext {m n : String} (h : normalize (mkTitle m) = normalize (mkTitle n)) :
    normTitleEq m = normTitleEq n := by
  funext t
  unfold normTitleEq
  rw [h]

lemma normTitleEq_newTask (n m : String) (ctr : Nat) :
    normTitleEq n (newDeliveryTask m ctr) =
      decide (normalize (mkTitle m) = normalize (mkTitle n)) := rfl

lemma addDeliveryTask_countP_of_any (tasks : List WorkflowTask) (m n : String) (ctr : Nat)
    (h : tasks.any (normTitleEq n) = true) :
    (addDeliveryTask tasks m ctr).1.countP (normTitleEq n) = tasks.countP (normTitleEq n) := by
  unfold addDeliveryTask
  split
  · rfl
  · next hm =>
    rw [List.countP_append]
    have hfalse : normTitleEq n (newDeliveryTask m ctr) = false := by
      rw [normTitleEq_newTask]
      by_cases heq : normalize (mkTitle m) = normalize (mkTitle n)
      · exfalso
        rw [normTitleEq_ext heq] at hm
        exact hm h
      · simpa using heq
    simp [List.countP_cons, hfalse]

lemma addDeliveryTasks_countP_of_any :
    ∀ (names : List String) (tasks : List WorkflowTask) (ctr : Nat) (n : String),
      tasks.any (normTitleEq n) = true →
      (addDeliveryTasks tasks names ctr).1.countP (normTitleEq n) = tasks.countP (normTitleEq n) := by
  intro names
  induction names with
  | nil => intro _ _ _ h; rfl
  | cons m rest ih =>
      intro tasks ctr n h
      show (addDeliveryTasks (addDeliveryTask tasks m ctr).1 rest (addDeliveryTask tasks m ctr).2).1.countP _ = _
      rw [ih _ _ n (addDeliveryTask_any_mono _ tasks m ctr h),
        addDeliveryTask_countP_of_any tasks m n ctr h]

lemma addDeliveryTasks_countP_new :
    ∀ (names : List String) (tasks : List WorkflowTask) (ctr : Nat) (n : String),
      n ∈ names → tasks.any (normTitleEq n) = false →
      (addDeliveryTasks tasks names ctr).1.countP (normTitleEq n) = 1 := by
  intro names
  induction names with
  | nil => intro _ _ _ h; cases h
  | cons m rest ih =>
      intro tasks ctr n hn h
      have hcount0 : tasks.countP (normTitleEq n) = 0 :=
        List.countP_eq_zero.mpr fun t ht => by
          have := (List.any_eq_false.mp h) t ht; simpa using this
      show (addDeliveryTasks (addDeliveryTask tasks m ctr).1 rest (addDeliveryTask tasks m ctr).2).1.countP _ = _
      by_cases hm : tasks.any (normTitleEq m) = true
      · have hstep : addDeliveryTask tasks m ctr = (tasks, ctr) := by
          unfold addDeliveryTask; rw [if_pos hm]
        rw [hstep]
        have hmem : n ∈ rest := by
          rcases List.mem_cons.mp hn with hnm | hr
          · subst hnm; rw [hm] at h; cases h
          · exact hr
        exact ih tasks ctr n hmem h
      · have hstep : addDeliveryTask tasks m ctr = (tasks ++ [newDeliveryTask m ctr], ctr + 1) := by
          unfold addDeliveryTask; rw [if_neg hm]
        rw [hstep]
        by_cases heq : normalize (mkTitle m) = normalize (mkTitle n)
        · have hany : (tasks ++ [newDeliveryTask m ctr]).any (normTitleEq n) = true := by
            simp only [List.any_append, Bool.or_eq_true]
            right
            simp [normTitleEq_newTask, heq]
          rw [addDeliveryTasks_countP_of_any rest _ _ n hany, List.countP_append, hcount0]
          simp [List.countP_cons, normTitleEq_newTask, heq]
        · have hfalse : normTitleEq n (newDeliveryTask m ctr) = false := by
            rw [normTitleEq_newTask]; simpa using heq
          have hany : (tasks ++ [newDeliveryTask m ctr]).any (normTitleEq n) = false := by
            simp only [List.any_append, Bool.or_eq_false_iff]
            exact ⟨h, by simp [hfalse]⟩
          have hmem : n ∈ rest := by
            rcases List.mem_cons.mp hn with hnm | hr
            · subst hnm; exact absurd rfl heq
            · exact hr
          exact ih _ _ n hmem hany

lemma addDeliveryTasks_countP (names : List String) (tasks : List WorkflowTask) (ctr : Nat)
    (n : String) (hn : n ∈ names) :
    (addDeliveryTasks tasks names ctr).1.countP (normTitleEq n) =
      max (tasks.countP (normTitleEq n)) 1 := by
  by_cases h : tasks.any (normTitleEq n) = true
  · rw [addDeliveryTasks_countP_of_any names tasks ctr n h]
    have hpos : 0 < tasks.countP (normTitleEq n) := by
      rw [List.countP_pos_iff]
      obtain ⟨t, ht, hp⟩ := List.any_eq_true.mp h
      exact ⟨t, ht, hp⟩
    omega
  · have h0 : tasks.countP (normTitleEq n) = 0 :=
      List.countP_eq_zero.mpr fun t ht => by
        have := (List.any_eq_false.mp (Bool.eq_false_iff.mpr (by simpa using h))) t ht
        simpa using this
    rw [addDeliveryTasks_countP_new names tasks ctr n hn (by simpa using h), h0]
    simp

lemma addDeliveryTasks_all_not_done :
    ∀ (names : List String) (tasks : List WorkflowTask) (ctr : Nat),
      tasks.all (fun t => !t.done) = true →
      (addDeliveryTasks tasks names ctr).1.all (fun t => !t.done) = true := by
  intro names
  induction names with
  | nil => intro _ _ h; exact h
  | cons m rest ih =>
      intro tasks ctr h
      show (addDeliveryTasks (addDeliveryTask tasks m ctr).1 rest (addDeliveryTask tasks m ctr).2).1.all _ = true
      apply ih
      unfold addDeliveryTask
      split
      · exact h
      · simp only [List.all_append, h, Bool.true_and]; rfl

/-! ### Lemmas about `ensureDeliveryTasks` -/

/-- the result of `ensureDeliveryTasks` always has a first delivery
category, whose tasks are exactly the first delivery tasks of the input
extended by the `forEach` loop (for some id counter). -/
lemma ensure_find_spec :
    ∀ (base : List WorkflowCategory) (names : List String) (ctr : Nat),
      ∃ cat ctr2, (ensureDeliveryTasks base names ctr).1.find? isDeliveryCat = some cat ∧
        cat.tasks = (addDeliveryTasks (firstDeliveryTasks base) names ctr2).1 := by
  intro base names
  induction base with
  | nil =>
      intro ctr
      refine ⟨_, ctr + 1, List.find?_cons_of_pos _ isDeliveryName_default, ?_⟩
      simp [firstDeliveryTasks]
  | cons c rest ih =>
      intro ctr
      by_cases hc : isDeliveryCat c = true
      · refine ⟨{ c with tasks := (addDeliveryTasks c.tasks names ctr).1 }, ctr, ?_, ?_⟩
        · show ((ensureDeliveryTasks (c :: rest) names ctr).1.find? isDeliveryCat) = _
          simp only [ensureDeliveryTasks, if_pos hc]
          exact List.find?_cons_of_pos _ hc
        · simp [firstDeliveryTasks, List.find?_cons_of_pos _ hc]
      · obtain ⟨cat, ctr2, h1, h2⟩ := ih ctr
        refine ⟨cat, ctr2, ?_, ?_⟩
        · show ((ensureDeliveryTasks (c :: rest) names ctr).1.find? isDeliveryCat) = _
          simp only [ensureDeliveryTasks, if_neg hc]
          rw [List.find?_cons_of_neg _ (by simpa using hc)]
          exact h1
        · rw [h2]
          congr 2
          simp [firstDeliveryTasks, List.find?_cons_of_neg _ (by simpa using hc)]

/-- Claim C2 (confirmed).  `ensureDeliveryTasks` is idempotent: running
it a second time with the same product names adds no category and no
task, whatever id counters the two runs use — the second result equals
the first exactly. -/
theorem ensureDeliveryTasks_idempotent :
    ∀ (base : List WorkflowCategory) (names : List String) (ctr ctr2 : Nat),
      (ensureDeliveryTasks (ensureDeliveryTasks base names ctr).1 names ctr2).1 =
        (ensureDeliveryTasks base names ctr).1 := by
  intro base names
  induction base with
  | nil =>
      intro ctr ctr2
      have hd : isDeliveryCat
          ⟨uidStr ctr, "Entrega de productos", (addDeliveryTasks [] names (ctr + 1)).1⟩ = true :=
        isDeliveryName_default
      have hnoop := addDeliveryTasks_noop names (addDeliveryTasks [] names (ctr + 1)).1 ctr2
        (fun n hn => addDeliveryTasks_all names [] (ctr + 1) n hn)
      show (ensureDeliveryTasks
        [⟨uidStr ctr, "Entrega de productos", (addDeliveryTasks [] names (ctr + 1)).1⟩] names ctr2).1 = _
      simp [ensureDeliveryTasks, hd, hnoop]
  | cons c rest ih =>
      intro ctr ctr2
      by_cases hc : isDeliveryCat c = true
      · have hnoop := addDeliveryTasks_noop names (addDeliveryTasks c.tasks names ctr).1 ctr2
          (fun n hn => addDeliveryTasks_all names c.tasks ctr n hn)
        have hc2 : isDeliveryCat { c with tasks := (addDeliveryTasks c.tasks names ctr).1 } = true := hc
        show (ensureDeliveryTasks ((ensureDeliveryTasks (c :: rest) names ctr).1) names ctr2).1 = _
        simp [ensureDeliveryTasks, hc, hc2, hnoop]
      · have hcf : isDeliveryCat c = false := by simpa using hc
        show (ensureDeliveryTasks ((ensureDeliveryTasks (c :: rest) names ctr).1) names ctr2).1 = _
        simp only [ensureDeliveryTasks, hcf, Bool.false_eq_true, if_false]
        exact congrArg (c :: ·) (ih ctr ctr2)

/-- Claim C2 witness at a concrete input. -/
theorem ensureDeliveryTasks_idempotent_witness :
    (ensureDeliveryTasks (ensureDeliveryTasks base3cex ["X", "Y"] 0).1 ["X", "Y"] 5).1 =
      (ensureDeliveryTasks base3cex ["X", "Y"] 0).1 :=
  ensureDeliveryTasks_idempotent base3cex ["X", "Y"] 0 5

/-- Claim C3 (amended).  The result of `ensureDeliveryTasks` has a
delivery category; its tasks extend the input's first delivery tasks,
every task added by the call is not done, and for every requested name
the number of tasks with that normalized title is `max pre 1`, where
`pre` is the number the input already had: exactly one task when the
input had at most one, never a new duplicate, and one shared task even
when several names normalize alike. -/
theorem ensureDeliveryTasks_delivery_spec :
    ∀ (base : List WorkflowCategory) (names : List String) (ctr : Nat),
      (((ensureDeliveryTasks base names ctr).1.find? isDeliveryCat).isSome = true) ∧
      ∀ cat, (ensureDeliveryTasks base names ctr).1.find? isDeliveryCat = some cat →
        cat.tasks.take (firstDeliveryTasks base).length = firstDeliveryTasks base ∧
        (cat.tasks.drop (firstDeliveryTasks base).length).all (fun t => !t.done) = true ∧
        ∀ n, n ∈ names →
          cat.tasks.countP (normTitleEq n) =
            max ((firstDeliveryTasks base).countP (normTitleEq n)) 1 := by
  intro base names ctr
  obtain ⟨cat0, ctr2, hfind, htasks⟩ := ensure_find_spec base names ctr
  constructor
  · rw [hfind]; rfl
  · intro cat hcat
    rw [hfind] at hcat
    injection hcat with hcat
    subst hcat
    obtain ⟨nt, hnt, hdone⟩ := addDeliveryTasks_shape names (firstDeliveryTasks base) ctr2
    refine ⟨?_, ?_, ?_⟩
    · rw [htasks, hnt, List.take_left]
    · rw [htasks, hnt, List.drop_left]
      exact List.all_eq_true.mpr fun t ht => by simp [hdone t ht]
    · intro n hn
      rw [htasks]
      exact addDeliveryTasks_countP names _ ctr2 n hn

/-- Claim C3 witness at a concrete input. -/
theorem ensureDeliveryTasks_delivery_spec_witness :
    ((ensureDeliveryTasks ([] : List WorkflowCategory) ["Album"] 0).1.find? isDeliveryCat).isSome = true ∧
    ((ensureDeliveryTasks ([] : List WorkflowCategory) ["Album"] 0).1.find? isDeliveryCat).map
      (fun cat => cat.tasks.countP (normTitleEq "Album")) = some 1 := by
  obtain ⟨h1, h2⟩ := ensureDeliveryTasks_delivery_spec [] ["Album"] 0
  refine ⟨h1, ?_⟩
  rcases hfind : (ensureDeliveryTasks ([] : List WorkflowCategory) ["Album"] 0).1.find? isDeliveryCat with _ | cat
  · rw [hfind] at h1; simp at h1
  · obtain ⟨-, -, h3⟩ := h2 cat hfind
    have h4 := h3 "Album" (by simp)
    show some (cat.tasks.countP (normTitleEq "Album")) = some 1
    rw [h4]
    decide

/-- Claim C3 counterexample: when the workflow already holds two tasks
whose normalized titles coincide, the delivery category does not contain
exactly one task with that normalized title after the call. -/
theorem ensureDeliveryTasks_exactly_one_cex :
    ((ensureDeliveryTasks base3cex ["X"] 0).1.find? isDeliveryCat).map
      (fun cat => cat.tasks.countP (normTitleEq "X")) = some 2 ∧ (2 : Nat) ≠ 1 := by
  constructor
  · decide
  · decide

/-- Claim C9 (confirmed).  `ensureDeliveryTasks` is append-only: every
category of the input keeps its position (index `j` other than the first
delivery index is unchanged), the first delivery category keeps its id,
name and existing tasks as a prefix, appended tasks are not done, and
when no delivery category exists one named "Entrega de productos" is
appended at the end (`findIdx` is then `base.length`).  Purity of the
embedding gives the no-mutation part of the claim. -/
theorem ensureDeliveryTasks_append_only :
    ∀ (base : List WorkflowCategory) (names : List String) (ctr : Nat) (j : Nat),
      (ensureDeliveryTasks base names ctr).1.length =
        max base.length (base.findIdx isDeliveryCat + 1) ∧
      (j ≠ base.findIdx isDeliveryCat →
        (ensureDeliveryTasks base names ctr).1[j]? = base[j]?) ∧
      ((ensureDeliveryTasks base names ctr).1[base.findIdx isDeliveryCat]?.map
        (fun cat => cat.tasks.take (firstDeliveryTasks base).length) =
          some (firstDeliveryTasks base)) ∧
      ((ensureDeliveryTasks base names ctr).1[base.findIdx isDeliveryCat]?.map
        (fun cat => (cat.tasks.drop (firstDeliveryTasks base).length).all fun t => !t.done) =
          some true) ∧
      ((ensureDeliveryTasks base names ctr).1[base.findIdx isDeliveryCat]?.map isDeliveryCat =
        some true) ∧
      (∀ cat0, base[base.findIdx isDeliveryCat]? = some cat0 →
        (ensureDeliveryTasks base names ctr).1[base.findIdx isDeliveryCat]?.map
          (fun cat => (cat.id, cat.name)) = some (cat0.id, cat0.name)) ∧
      (base[base.findIdx isDeliveryCat]? = none →
        (ensureDeliveryTasks base names ctr).1[base.findIdx isDeliveryCat]?.map
          (fun cat => cat.name) = some "Entrega de productos") := by
  intro base names
  induction base with
  | nil =>
      intro ctr j
      obtain ⟨nt, hnt, hdone⟩ := addDeliveryTasks_shape names [] (ctr + 1)
      have hts : (addDeliveryTasks [] names (ctr + 1)).1 = nt := by simpa using hnt
      refine ⟨?_, ?_, ?_, ?_, ?_, ?_, ?_⟩
      · show (1 : Nat) = max 0 (List.findIdx isDeliveryCat [] + 1)
        simp
      · intro hj
        show [(⟨uidStr ctr, "Entrega de productos", (addDeliveryTasks [] names (ctr + 1)).1⟩ :
            WorkflowCategory)][j]? = _
        cases j with
        | zero => exact absurd rfl hj
        | succ k => simp
      · simp only [List.findIdx_nil, List.getElem?_cons_zero, Option.map_some']
        show some ((((addDeliveryTasks [] names (ctr + 1)).1.take
          (firstDeliveryTasks []).length))) = some (firstDeliveryTasks [])
        simp [firstDeliveryTasks]
      · simp only [List.findIdx_nil, List.getElem?_cons_zero, Option.map_some']
        show some (((addDeliveryTasks [] names (ctr + 1)).1.drop
          (firstDeliveryTasks []).length).all fun t => !t.done) = some true
        rw [hts]
        show some ((nt.drop 0).all fun t => !t.done) = some true
        simp only [List.drop_zero]
        exact congrArg some (List.all_eq_true.mpr fun t ht => by simp [hdone t ht])
      · simp only [List.findIdx_nil, List.getElem?_cons_zero, Option.map_some']
        exact congrArg some isDeliveryName_default
      · intro cat0 h
        simp at h
      · intro _
        show Option.map (fun cat => cat.name)
          ([(⟨uidStr ctr, "Entrega de productos", (addDeliveryTasks [] names (ctr + 1)).1⟩ :
            WorkflowCategory)])[List.findIdx isDeliveryCat []]? = some "Entrega de productos"
        simp
  | cons c rest ih =>
      intro ctr j
      by_cases hc : isDeliveryCat c = true
      · have hidx : (c :: rest).findIdx isDeliveryCat = 0 := by
          rw [List.findIdx_cons, hc]; rfl
        have hres : (ensureDeliveryTasks (c :: rest) names ctr).1 =
            { c with tasks := (addDeliveryTasks c.tasks names ctr).1 } :: rest := by
          simp [ensureDeliveryTasks, hc]
        obtain ⟨nt, hnt, hdone⟩ := addDeliveryTasks_shape names c.tasks ctr
        have hpre : firstDeliveryTasks (c :: rest) = c.tasks := by
          simp [firstDeliveryTasks, List.find?_cons_of_pos _ hc]
        rw [hres, hidx, hpre]
        refine ⟨?_, ?_, ?_, ?_, ?_, ?_, ?_⟩
        · simp only [List.length_cons]
          omega
        · intro hj
          cases j with
          | zero => exact absurd rfl hj
          | succ k => simp
        · simp only [List.getElem?_cons_zero, Option.map_some']
          show some ((addDeliveryTasks c.tasks names ctr).1.take c.tasks.length) = some c.tasks
          rw [hnt, List.take_left]
        · simp only [List.getElem?_cons_zero, Option.map_some']
          show some (((addDeliveryTasks c.tasks names ctr).1.drop c.tasks.length).all
            fun t => !t.done) = some true
          rw [hnt, List.drop_left]
          exact congrArg some (List.all_eq_true.mpr fun t ht => by simp [hdone t ht])
        · simp only [List.getElem?_cons_zero, Option.map_some']
          exact congrArg some hc
        · intro cat0 h
          simp only [List.getElem?_cons_zero, Option.some.injEq] at h
          subst h
          simp only [List.getElem?_cons_zero, Option.map_some']
        · intro h
          simp at h
      · have hcf : isDeliveryCat c = false := by simpa using hc
        have hidx : (c :: rest).findIdx isDeliveryCat = rest.findIdx isDeliveryCat + 1 := by
          rw [List.findIdx_cons, hcf]; rfl
        have hres : (ensureDeliveryTasks (c :: rest) names ctr).1 =
            c :: (ensureDeliveryTasks rest names ctr).1 := by
          simp only [ensureDeliveryTasks, hcf, Bool.false_eq_true, if_false]
        have hpre : firstDeliveryTasks (c :: rest) = firstDeliveryTasks rest := by
          simp [firstDeliveryTasks, List.find?_cons_of_neg _ (by simpa using hc)]
        rw [hres, hidx, hpre]
        obtain ⟨ihlen, _, ih3, ih4, ih5, ih6, ih7⟩ := ih ctr 0
        refine ⟨?_, ?_, ?_, ?_, ?_, ?_, ?_⟩
        · simp only [List.length_cons, ihlen]
          omega
        · intro hj
          cases j with
          | zero => simp
          | succ k =>
              have hk : k ≠ rest.findIdx isDeliveryCat := fun h => hj (by rw [h])
              obtain ⟨-, ih2, -⟩ := ih ctr k
              simp only [List.getElem?_cons_succ]
              exact ih2 hk
        · simpa using ih3
        · simpa using ih4
        · simpa using ih5
        · intro cat0 h
          simp only [List.getElem?_cons_succ] at h ⊢
          exact ih6 cat0 h
        · intro h
          simp only [List.getElem?_cons_succ] at h ⊢
          exact ih7 h

/-- Claim C9 witness at a concrete input (no delivery category: the new
category is appended and the existing category is untouched). -/
theorem ensureDeliveryTasks_append_only_witness :
    (ensureDeliveryTasks base9 ["P"] 0).1.length = 2 ∧
    (ensureDeliveryTasks base9 ["P"] 0).1[0]? = base9[0]? := by
  obtain ⟨h1, h2, -⟩ := ensureDeliveryTasks_append_only base9 ["P"] 0 0
  exact ⟨by rw [h1]; decide, h2 (by decide)⟩

/-! ### Lemmas about the display reconciler -/

lemma getDisplayItems_eq_withContract (contracts : List Contract) (o : OrderDoc)
    (c : Contract) (h : resolveContract contracts o = some c)
    (hne : c.storeItems.isEmpty = false) :
    getDisplayItems contracts o = displayWithContract c (o.items.getD []) := by
  unfold getDisplayItems
  rw [h]
  simp [hne]

lemma memNorm_iff (k : String) : ∀ (l : List String), memNorm k l = true ↔ k ∈ l := by
  intro l
  induction l with
  | nil => simp [memNorm]
  | cons s rest ih =>
      simp only [memNorm, Bool.or_eq_true, decide_eq_true_eq, ih, List.mem_cons]
      constructor
      · rintro (h | h)
        · exact Or.inl h.symm
        · exact Or.inr h
      · rintro (h | h)
        · exact Or.inl h.symm
        · exact Or.inr h

lemma countP_congr_ext (p q : α → Bool) :
    ∀ (l : List α), (∀ a ∈ l, p a = q a) → l.countP p = l.countP q := by
  intro l
  induction l with
  | nil => intro _; rfl
  | cons a rest ih =>
      intro h
      rw [List.countP_cons, List.countP_cons, h a (List.mem_cons_self a rest),
        ih fun b hb => h b (List.mem_cons_of_mem a hb)]

lemma countP_eq_one_of_nodup_map (f : α → String) :
    ∀ (l : List α), (l.map f).Nodup → ∀ a ∈ l,
      l.countP (fun x => decide (f x = f a)) = 1 := by
  intro l
  induction l with
  | nil => intro _ a ha; cases ha
  | cons b rest ih =>
      intro hnd a ha
      rw [List.map_cons, List.nodup_cons] at hnd
      obtain ⟨hb, ht⟩ := hnd
      rcases List.mem_cons.mp ha with h | h
      · subst h
        rw [List.countP_cons]
        have h0 : rest.countP (fun x => decide (f x = f a)) = 0 :=
          List.countP_eq_zero.mpr fun x hx => by
            simp only [decide_eq_true_eq]
            intro hfx
            exact hb (hfx ▸ List.mem_map_of_mem f hx)
        simp [h0]
      · rw [List.countP_cons]
        have hne : f b ≠ f a := fun hEq => hb (hEq ▸ List.mem_map_of_mem f h)
        simp [ih ht a h, hne]

/-- when an order item is the first normalized-name match of a contract
item, the label the row gets (`match.name || ci.name`) still normalizes
to the contract item's name. -/
lemma strOr_name_norm (m : OrderLineItem) (nm : String)
    (h : normalize (lineKey m) = normalize nm) :
    normalize (strOr m.name nm) = normalize nm := by
  rcases hm : m.name with _ | s
  · simp [strOr]
  · by_cases hs : s = ""
    · simp [strOr, hs]
    · have hl : lineKey m = s := by simp [lineKey, hm, strOr, hs]
      rw [hl] at h
      simpa [strOr, hs] using h

lemma mergeRow_name_norm (items : List OrderLineItem) (ci : ContractItem) :
    normalize (mergeRow items ci).name = normalize ci.name := by
  unfold mergeRow
  rcases hfind : items.find? (fun oi => decide (normalize (lineKey oi) = normalize ci.name))
    with _ | m
  · rfl
  · have hp := List.find?_some hfind
    simp only [decide_eq_true_eq] at hp
    exact strOr_name_norm m ci.name hp

/-- Claim C1 (amended).  When a contract item has a normalized-name
match among the order's stored items, the reconciled row at that item's
position takes quantity, price and total from the order item
(recomputing the total as price×quantity when the order item has none),
and its label is the order item's own name when that is non-empty — the
contract item's name is used only as fallback — while still normalizing
to the contract item's name. -/
theorem getDisplayItems_row_from_order :
    ∀ (contracts : List Contract) (o : OrderDoc) (c : Contract) (i : Nat)
      (si : StoreItem) (m : OrderLineItem),
      resolveContract contracts o = some c →
      c.storeItems.isEmpty = false →
      c.storeItems[i]? = some si →
      (o.items.getD []).find?
        (fun oi => decide (normalize (lineKey oi) = normalize (canonItem si).name)) = some m →
      (getDisplayItems contracts o)[i]? = some
        { name := strOr m.name (canonItem si).name
        , qty := numOr2 m.qty m.quantity (canonItem si).quantity
        , price := numOr m.price (canonItem si).price
        , total := numOr m.total
            (numOr m.price (canonItem si).price * numOr2 m.qty m.quantity (canonItem si).quantity) } ∧
      normalize (strOr m.name (canonItem si).name) = normalize (canonItem si).name := by
  intro contracts o c i si m hres hne hsi hfind
  rw [getDisplayItems_eq_withContract contracts o c hres hne]
  have hi : i < c.storeItems.length := by
    by_contra hlt
    rw [List.getElem?_eq_none (by omega)] at hsi
    cases hsi
  constructor
  · show ((c.storeItems.map canonItem).map (mergeRow (o.items.getD [])) ++ _)[i]? = _
    rw [List.getElem?_append]
    rw [if_pos (by simpa using hi)]
    rw [List.getElem?_map, List.getElem?_map, hsi]
    show some (mergeRow (o.items.getD []) (canonItem si)) = _
    unfold mergeRow
    rw [hfind]
  · have hp := List.find?_some hfind
    simp only [decide_eq_true_eq] at hp
    exact strOr_name_norm m (canonItem si).name hp

/-- Claim C1 witness: the spec's own scenario.  Order item
`{name:"album a", qty:1, price:50}` matched against contract item
`{name:"Album A", quantity:1, price:80}` yields the single row
`{name:"album a", qty:1, price:50, total:50}`. -/
theorem getDisplayItems_row_from_order_witness :
    (getDisplayItems [c1cex] o1cex)[0]? = some ⟨"album a", 1, 50, 50⟩ ∧
    normalize "album a" = normalize "Album A" := by
  have h := getDisplayItems_row_from_order [c1cex] o1cex c1cex 0
    { name := some "Album A", quantity := some 1, price := some 80 }
    { name := some "album a", qty := some 1, price := some 50 }
    (by decide) (by decide) (by decide) (by decide)
  refine ⟨?_, by decide⟩
  rw [h.1]
  decide

/-- Claim C1 counterexample: in the spec's scenario the displayed label
is the order item's "album a", not the contract's "Album A" — the code
computes `match.name || ci.name`, so the contract name is only a
fallback. -/
theorem getDisplayItems_contract_label_cex :
    getDisplayItems [c1cex] o1cex = [⟨"album a", 1, 50, 50⟩] ∧
    ∀ r ∈ getDisplayItems [c1cex] o1cex, r.name ≠ "Album A" := by
  constructor
  · decide
  · decide

/-- Claim C4 (amended).  When the contract's store items have pairwise
distinct normalized names, every contract item's name appears exactly
once in the reconciled list under normalized comparison, whatever the
case/diacritic differences of the stored order names. -/
theorem getDisplayItems_names_once :
    ∀ (contracts : List Contract) (o : OrderDoc) (c : Contract) (si : StoreItem),
      resolveContract contracts o = some c →
      c.storeItems.isEmpty = false →
      (c.storeItems.map fun x => normalize (canonItem x).name).Nodup →
      si ∈ c.storeItems →
      (getDisplayItems contracts o).countP
        (fun r => decide (normalize r.name = normalize (canonItem si).name)) = 1 := by
  intro contracts o c si hres hne hnd hsi
  rw [getDisplayItems_eq_withContract contracts o c hres hne]
  unfold displayWithContract
  rw [List.countP_append]
  have hmerged : ((c.storeItems.map canonItem).map (mergeRow (o.items.getD []))).countP
      (fun r => decide (normalize r.name = normalize (canonItem si).name)) = 1 := by
    rw [List.countP_map, List.countP_map]
    have hcongr : (c.storeItems).countP
        (((fun r => decide (normalize r.name = normalize (canonItem si).name)) ∘
          (mergeRow (o.items.getD []))) ∘ canonItem) =
        (c.storeItems).countP
          (fun x => decide (normalize (canonItem x).name = normalize (canonItem si).name)) := by
      apply countP_congr_ext
      intro a _
      simp only [Function.comp_apply, mergeRow_name_norm]
    rw [hcongr]
    exact countP_eq_one_of_nodup_map (fun x => normalize (canonItem x).name) c.storeItems hnd si hsi
  have hextras : (((o.items.getD []).filter fun oi =>
      !(memNorm (normalize (lineKey oi)) ((c.storeItems.map canonItem).map
        fun ci => normalize ci.name))).map extraRow).countP
      (fun r => decide (normalize r.name = normalize (canonItem si).name)) = 0 := by
    rw [List.countP_map]
    apply List.countP_eq_zero.mpr
    intro e he
    obtain ⟨-, hmem⟩ := List.mem_filter.mp he
    simp only [Bool.not_eq_eq_eq_not, Bool.not_true] at hmem
    simp only [Function.comp_apply, decide_eq_true_eq]
    intro hEq
    have hkey : normalize (canonItem si).name ∈
        ((c.storeItems.map canonItem).map fun ci => normalize ci.name) := by
      rw [List.map_map]
      exact List.mem_map_of_mem _ hsi
    have : memNorm (normalize (lineKey e))
        ((c.storeItems.map canonItem).map fun ci => normalize ci.name) = true := by
      rw [memNorm_iff]
      show normalize (lineKey e) ∈ _
      have hname : (extraRow e).name = lineKey e := rfl
      rw [← hname, hEq]
      exact hkey
    rw [this] at hmem
    cases hmem
  rw [hmerged, hextras]

/-- Claim C4 witness: distinct normalized contract names ("Álbum",
"Box"), order stores "album" without the accent; "Álbum" appears exactly
once in the reconciled list. -/
theorem getDisplayItems_names_once_witness :
    (getDisplayItems [c4wit] o4wit).countP
      (fun r => decide (normalize r.name =
        normalize (canonItem { name := some "Álbum", quantity := some 1, price := some 5 }).name)) = 1 :=
  getDisplayItems_names_once [c4wit] o4wit c4wit
    { name := some "Álbum", quantity := some 1, price := some 5 }
    (by decide) (by decide) (by decide) (by decide)

/-- Claim C4 counterexample: with two contract items whose names
normalize alike ("Álbum", "album"), the name appears twice in the
reconciled list, not exactly once. -/
theorem getDisplayItems_names_once_cex :
    (c4cex.storeItems.map fun si => (canonItem si).name) = ["Álbum", "album"] ∧
    (getDisplayItems [c4cex] o4cex).countP
      (fun r => decide (normalize r.name = normalize "Álbum")) = 2 ∧ (2 : Nat) ≠ 1 := by
  refine ⟨by decide, by decide, by decide⟩

/-- Claim C5 (amended).  Every stored order item whose normalized key
matches no contract store-item name survives reconciliation as the extra
row carrying its own normalized quantity (default 1), price (default 0)
and total (price×quantity when absent). -/
theorem getDisplayItems_extra_preserved :
    ∀ (contracts : List Contract) (o : OrderDoc) (c : Contract) (oi : OrderLineItem),
      resolveContract contracts o = some c →
      c.storeItems.isEmpty = false →
      oi ∈ o.items.getD [] →
      memNorm (normalize (lineKey oi))
        (c.storeItems.map fun x => normalize (canonItem x).name) = false →
      extraRow oi ∈ getDisplayItems contracts o := by
  intro contracts o c oi hres hne hmem hkey
  rw [getDisplayItems_eq_withContract contracts o c hres hne]
  unfold displayWithContract
  apply List.mem_append_right
  apply List.mem_map_of_mem
  apply List.mem_filter.mpr
  refine ⟨hmem, ?_⟩
  have : ((c.storeItems.map canonItem).map fun ci => normalize ci.name) =
      (c.storeItems.map fun x => normalize (canonItem x).name) := by
    rw [List.map_map]
    rfl
  rw [this, hkey]
  rfl

/-- Claim C5 witness: the "Extra frame" order item, absent from the
contract, appears as its extra row. -/
theorem getDisplayItems_extra_preserved_witness :
    extraRow { name := some "Extra frame", qty := some 2, price := some 30 } ∈
      getDisplayItems [c5wit] o5wit :=
  getDisplayItems_extra_preserved [c5wit] o5wit c5wit
    { name := some "Extra frame", qty := some 2, price := some 30 }
    (by decide) (by decide) (by decide) (by decide)

/-- Claim C5 counterexample: the claim's final clause ("no order item is
ever silently dropped") fails — when two stored order items match the
same contract item, only the first is merged and the second is neither
merged nor kept as an extra: the reconciled list for `o5cex` has a
single row with price 10, and no row carries the second item's
price 20. -/
theorem getDisplayItems_drop_cex :
    getDisplayItems [c5cex] o5cex = [⟨"Album", 1, 10, 10⟩] ∧
    ({ name := some "album", price := some 20 } : OrderLineItem) ∈ o5cex.items.getD [] ∧
    ∀ r ∈ getDisplayItems [c5cex] o5cex, r.price ≠ 20 := by
  refine ⟨by decide, by decide, by decide⟩

/-! ### The save / checkbox delivery-completion sync (claim C6) -/

/-- Claim C6 (amended).  After `saveWorkflow` (and the per-task checkbox
handler, which runs the identical merge) persists the contract, every
task of the contract's (ensured) workflow keeps its position, name and
title; a task in a delivery category whose normalized title matches some
task of the order's first delivery category carries the done flag of the
first such matching order task, a delivery task without a match and
every task of a non-delivery category keep their previous flag. -/
theorem saveWorkflow_delivery_sync :
    ∀ (ordWf : List WorkflowCategory) (c : Contract) (names : List String) (ctr : Nat)
      (oc : WorkflowCategory) (i j : Nat) (cat : WorkflowCategory) (t : WorkflowTask),
      ordWf.find? isDeliveryCat = some oc →
      (ensureDeliveryTasks (contractBaseWf c) names ctr).1[i]? = some cat →
      cat.tasks[j]? = some t →
      ((saveWorkflowContractWf ordWf c names ctr)[i]?.map fun c2 => c2.name) = some cat.name ∧
      (((saveWorkflowContractWf ordWf c names ctr)[i]?.bind fun c2 => c2.tasks[j]?).map
        fun t2 => t2.title) = some t.title ∧
      (isDeliveryCat cat = false →
        ((saveWorkflowContractWf ordWf c names ctr)[i]?.bind fun c2 => c2.tasks[j]?) = some t) ∧
      (∀ m, isDeliveryCat cat = true →
        oc.tasks.find? (fun ot => decide (normalize ot.title = normalize t.title)) = some m →
        (((saveWorkflowContractWf ordWf c names ctr)[i]?.bind fun c2 => c2.tasks[j]?).map
          fun t2 => t2.done) = some m.done) ∧
      (oc.tasks.find? (fun ot => decide (normalize ot.title = normalize t.title)) = none →
        (((saveWorkflowContractWf ordWf c names ctr)[i]?.bind fun c2 => c2.tasks[j]?).map
          fun t2 => t2.done) = some t.done) := by
  intro ordWf c names ctr oc i j cat t hoc hcat ht
  have hsave : saveWorkflowContractWf ordWf c names ctr =
      (ensureDeliveryTasks (contractBaseWf c) names ctr).1.map fun cat2 =>
        if isDeliveryCat cat2 then
          { cat2 with tasks := cat2.tasks.map fun t2 =>
              match oc.tasks.find? (fun ot => decide (normalize ot.title = normalize t2.title)) with
              | some m => { t2 with done := m.done }
              | none => t2 }
        else cat2 := by
    unfold saveWorkflowContractWf mergeDeliveryDone
    rw [hoc]
  rw [hsave, List.getElem?_map, hcat, Option.map_some']
  by_cases hd : isDeliveryCat cat = true
  · rw [if_pos hd]
    simp only [Option.some_bind, List.getElem?_map, ht, Option.map_some']
    refine ⟨by trivial, ?_, ?_, ?_, ?_⟩
    · rcases hfind : oc.tasks.find? (fun ot => decide (normalize ot.title = normalize t.title))
        with _ | m
      · simp [hfind]
      · simp [hfind]
    · intro hfalse
      rw [hd] at hfalse
      cases hfalse
    · intro m _ hfind
      simp [hfind]
    · intro hfind
      simp [hfind]
  · rw [if_neg hd]
    simp only [Option.some_bind, ht, Option.map_some']
    refine ⟨by trivial, by trivial, fun _ => by trivial, ?_, fun _ => by trivial⟩
    intro m htrue _
    exact absurd htrue hd

/-- Claim C6 witness: the contract's matched delivery task "Entregar
Album" takes the order's done flag (true), and the unmatched "Entregar
Box" keeps its own flag (true). -/
theorem saveWorkflow_delivery_sync_witness :
    (((saveWorkflowContractWf ordWf6w c6wit [] 0)[0]?.bind fun c2 => c2.tasks[0]?).map
      fun t2 => t2.done) = some true ∧
    (((saveWorkflowContractWf ordWf6w c6wit [] 0)[0]?.bind fun c2 => c2.tasks[1]?).map
      fun t2 => t2.done) = some true := by
  have h0 := saveWorkflow_delivery_sync ordWf6w c6wit [] 0
    ⟨"ow1", "Entrega", [⟨"w1", "Entregar Album", true, none, none⟩]⟩ 0 0
    ⟨"cw1", "Entrega de productos",
      [⟨"v1", "Entregar Album", false, none, none⟩, ⟨"v2", "Entregar Box", true, none, none⟩]⟩
    ⟨"v1", "Entregar Album", false, none, none⟩ (by decide) (by decide) (by decide)
  have h1 := saveWorkflow_delivery_sync ordWf6w c6wit [] 0
    ⟨"ow1", "Entrega", [⟨"w1", "Entregar Album", true, none, none⟩]⟩ 0 1
    ⟨"cw1", "Entrega de productos",
      [⟨"v1", "Entregar Album", false, none, none⟩, ⟨"v2", "Entregar Box", true, none, none⟩]⟩
    ⟨"v2", "Entregar Box", true, none, none⟩ (by decide) (by decide) (by decide)
  exact ⟨h0.2.2.2.1 ⟨"w1", "Entregar Album", true, none, none⟩ (by decide) (by decide),
    h1.2.2.2.2 (by decide)⟩

/-- Claim C6 counterexample: pairing by title match is not a function
when the order's delivery category holds two tasks with the same
normalized title and different flags — the persisted contract task gets
the first match's flag (false) and disagrees with the second matching
order task (true), so the claimed identity of done flags under title
pairing fails. -/
theorem saveWorkflow_delivery_sync_cex :
    ¬ (∀ cat ∈ saveWorkflowContractWf ordWf6 c6cex [] 0, isDeliveryCat cat = true →
        ∀ t ∈ cat.tasks, ∀ ot ∈ firstDeliveryTasks ordWf6,
          normalize ot.title = normalize t.title → t.done = ot.done) := by
  decide

/-! ### The payment toggle roundtrip (claim C7) -/

lemma task_set_done_self (t : WorkflowTask) : ({ t with done := t.done } : WorkflowTask) = t := rfl

lemma setDeliveryDone_cancel :
    ∀ wf, setDeliveryDone false (setDeliveryDone true wf) = setDeliveryDone false wf := by
  intro wf
  unfold setDeliveryDone
  rw [List.map_map]
  apply List.map_congr_left
  intro c _
  simp only [Function.comp_apply]
  by_cases hd : isDeliveryCat c = true
  · simp only [isDeliveryCat_mk, hd, if_true, List.map_map]
    rfl
  · have hdf : isDeliveryCat c = false := by simpa using hd
    simp only [isDeliveryCat_mk, hdf, Bool.false_eq_true, if_false, List.map_map]
    rfl

lemma setDeliveryDone_false_id :
    ∀ wf, (∀ cat ∈ wf, isDeliveryCat cat = true → ∀ t ∈ cat.tasks, t.done = false) →
      setDeliveryDone false wf = wf := by
  intro wf h
  unfold setDeliveryDone
  have hcat : ∀ cat ∈ wf, ({ cat with tasks := cat.tasks.map fun t =>
      { t with done := if isDeliveryCat cat then false else t.done } } : WorkflowCategory) = cat := by
    intro cat hmem
    have htasks : cat.tasks.map (fun t =>
        ({ t with done := if isDeliveryCat cat then false else t.done } : WorkflowTask)) = cat.tasks := by
      have heach : ∀ t ∈ cat.tasks,
          ({ t with done := if isDeliveryCat cat then false else t.done } : WorkflowTask) = t := by
        intro t ht
        by_cases hd : isDeliveryCat cat = true
        · have hdone := h cat hmem hd t ht
          have hif : (if isDeliveryCat cat = true then false else t.done) = t.done := by
            rw [hd, hdone]
            simp
          rw [hif]
        · have hdf : isDeliveryCat cat = false := by simpa using hd
          have hif : (if isDeliveryCat cat = true then false else t.done) = t.done := by
            rw [hdf]
            simp
          rw [hif]
      exact (List.map_congr_left heach).trans (List.map_id _)
    rw [htasks]
  exact (List.map_congr_left hcat).trans (List.map_id _)

lemma setDeliveryDone_delivery_false :
    ∀ wf cat, cat ∈ setDeliveryDone false wf → isDeliveryCat cat = true →
      ∀ t ∈ cat.tasks, t.done = false := by
  intro wf cat hmem hd t ht
  obtain ⟨cat0, -, hcat0⟩ := List.mem_map.mp hmem
  subst hcat0
  obtain ⟨t0, -, ht0⟩ := List.mem_map.mp ht
  subst ht0
  have hd0 : isDeliveryCat cat0 = true := hd
  show (if isDeliveryCat cat0 then false else t0.done) = false
  rw [hd0]
  simp

lemma setDeliveryDone_nondelivery (b : Bool) :
    ∀ wf (i : Nat) cat, wf[i]? = some cat → isDeliveryCat cat = false →
      (setDeliveryDone b wf)[i]? = some cat := by
  intro wf i cat hcat hd
  unfold setDeliveryDone
  rw [List.getElem?_map, hcat]
  have htasks : cat.tasks.map (fun t =>
      ({ t with done := if isDeliveryCat cat then b else t.done } : WorkflowTask)) = cat.tasks := by
    have heach : ∀ t ∈ cat.tasks,
        ({ t with done := if isDeliveryCat cat then b else t.done } : WorkflowTask) = t := by
      intro t _
      have hif : (if isDeliveryCat cat = true then b else t.done) = t.done := by
        rw [hd]
        simp
      rw [hif]
    exact (List.map_congr_left heach).trans (List.map_id _)
  simp only [Option.map_some']
  rw [htasks]

lemma setDeliveryDoneContract_false :
    ∀ wf cat, cat ∈ setDeliveryDoneContract false wf → isDeliveryCat cat = true →
      ∀ t ∈ cat.tasks, t.done = false := by
  intro wf cat hmem hd t ht
  obtain ⟨cat0, -, hcat0⟩ := List.mem_map.mp hmem
  by_cases hd0 : isDeliveryCat cat0 = true
  · rw [if_pos hd0] at hcat0
    subst hcat0
    obtain ⟨t0, -, ht0⟩ := List.mem_map.mp ht
    subst ht0
    rfl
  · rw [if_neg hd0] at hcat0
    subst hcat0
    exact absurd hd hd0

/-- Claim C7 (amended).  `markDeliveryPaid` followed by
`resetDeliveryPaid` always lands in the reset state: `depositPaid =
false`, `status = "pendiente"` (the Spanish vocabulary the code
persists), delivery timestamp cleared to null, every delivery task not
done, non-delivery categories untouched; the roundtrip equals a plain
reset, so it restores the pre-mark state exactly when that state already
was in reset form (delivery tasks not done, deposit unpaid, status
"pendiente", no delivery timestamp) — not for arbitrary pre-states.  The
resolved contract is reset analogously: `depositPaid = false` and all
delivery tasks not done. -/
theorem markThenReset_spec :
    ∀ (s : OrderState) (now : String) (c : Contract) (names : List String) (ctr : Nat) (i : Nat),
      (resetDeliveryPaidOrder (markDeliveryPaidOrder s now)).depositPaid = false ∧
      (resetDeliveryPaidOrder (markDeliveryPaidOrder s now)).status = "pendiente" ∧
      (resetDeliveryPaidOrder (markDeliveryPaidOrder s now)).deliveredAt = none ∧
      resetDeliveryPaidOrder (markDeliveryPaidOrder s now) = resetDeliveryPaidOrder s ∧
      (∀ cat ∈ (resetDeliveryPaidOrder (markDeliveryPaidOrder s now)).workflow,
        isDeliveryCat cat = true → ∀ t ∈ cat.tasks, t.done = false) ∧
      (∀ cat, s.workflow[i]? = some cat → isDeliveryCat cat = false →
        (resetDeliveryPaidOrder (markDeliveryPaidOrder s now)).workflow[i]? = some cat) ∧
      ((∀ cat ∈ s.workflow, isDeliveryCat cat = true → ∀ t ∈ cat.tasks, t.done = false) →
        s.depositPaid = false → s.status = "pendiente" → s.deliveredAt = none →
        resetDeliveryPaidOrder (markDeliveryPaidOrder s now) = s) ∧
      (resetDeliveryPaidContract c names ctr).depositPaid = false ∧
      (∀ w, (resetDeliveryPaidContract c names ctr).workflow = some w →
        ∀ cat ∈ w, isDeliveryCat cat = true → ∀ t ∈ cat.tasks, t.done = false) := by
  intro s now c names ctr i
  have hwf : (resetDeliveryPaidOrder (markDeliveryPaidOrder s now)).workflow =
      setDeliveryDone false s.workflow := by
    show setDeliveryDone false (setDeliveryDone true s.workflow) = _
    exact setDeliveryDone_cancel s.workflow
  refine ⟨rfl, rfl, rfl, ?_, ?_, ?_, ?_, rfl, ?_⟩
  · show (⟨setDeliveryDone false (setDeliveryDone true s.workflow), false, "pendiente", none⟩ :
      OrderState) = _
    rw [setDeliveryDone_cancel s.workflow]
    rfl
  · intro cat hmem hd t ht
    rw [hwf] at hmem
    exact setDeliveryDone_delivery_false s.workflow cat hmem hd t ht
  · intro cat hcat hd
    rw [hwf]
    exact setDeliveryDone_nondelivery false s.workflow i cat hcat hd
  · intro hall hdep hst hdel
    have : resetDeliveryPaidOrder (markDeliveryPaidOrder s now) =
        ⟨setDeliveryDone false s.workflow, false, "pendiente", none⟩ := by
      show (⟨setDeliveryDone false (setDeliveryDone true s.workflow), false, "pendiente", none⟩ :
        OrderState) = _
      rw [setDeliveryDone_cancel s.workflow]
    rw [this, setDeliveryDone_false_id s.workflow hall]
    cases s with
    | mk wf dep st del =>
        simp only at hdep hst hdel
        rw [hdep, hst, hdel]
  · intro w hw cat hmem hd t ht
    have hw2 : setDeliveryDoneContract false
        (ensureDeliveryTasks (contractBaseWf c) names ctr).1 = w := by
      injection hw
    rw [← hw2] at hmem
    exact setDeliveryDoneContract_false _ cat hmem hd t ht

/-- Claim C7 witness: a state already in reset form is restored exactly,
and the contract ends with `depositPaid = false`. -/
theorem markThenReset_spec_witness :
    resetDeliveryPaidOrder (markDeliveryPaidOrder s7wit "now") = s7wit ∧
    (resetDeliveryPaidContract c7wit ["A"] 0).depositPaid = false := by
  obtain ⟨-, -, -, -, -, -, hrestore, hdep, -⟩ := markThenReset_spec s7wit "now" c7wit ["A"] 0 0
  exact ⟨hrestore (by decide) rfl rfl rfl, hdep⟩

/-- Claim C7 counterexample: with a delivery task already done before
`markDeliveryPaid`, the roundtrip is not bit-for-bit the pre-mark state
— the task comes back not done. -/
theorem markThenReset_cex :
    resetDeliveryPaidOrder (markDeliveryPaidOrder s7cex "now") ≠ s7cex ∧
    (resetDeliveryPaidOrder (markDeliveryPaidOrder s7cex "now")).workflow.map
      (fun cat => cat.tasks.map fun t => t.done) = [[false]] ∧
    s7cex.workflow.map (fun cat => cat.tasks.map fun t => t.done) = [[true]] := by
  refine ⟨by decide, by decide, by decide⟩

/-! ### Loader claims (C8, C10) -/

lemma loaderStep_created (dbOrders items : List OrderDoc) (now : String)
    (acc : LoaderAcc) (c : Contract) :
    (loaderStep dbOrders items now acc c).created = acc.created ∨
    (loaderStep dbOrders items now acc c).created = acc.created ++ [orderFromContract c now] := by
  unfold loaderStep
  split
  · exact Or.inl rfl
  · split
    · exact Or.inl rfl
    · split
      · exact Or.inr rfl
      · exact Or.inl rfl

lemma loader_created_mem (dbOrders items : List OrderDoc) (now : String) :
    ∀ (contracts : List Contract) (acc : LoaderAcc) (d : NewOrderData),
      d ∈ (contracts.foldl (loaderStep dbOrders items now) acc).created →
      d ∈ acc.created ∨ ∃ c ∈ contracts, d = orderFromContract c now := by
  intro contracts
  induction contracts with
  | nil => intro acc d h; exact Or.inl h
  | cons c cs ih =>
      intro acc d h
      rcases ih (loaderStep dbOrders items now acc c) d h with h2 | ⟨c2, hc2, hd⟩
      · rcases loaderStep_created dbOrders items now acc c with hs | hs
        · rw [hs] at h2
          exact Or.inl h2
        · rw [hs] at h2
          rcases List.mem_append.mp h2 with h3 | h3
          · exact Or.inl h3
          · refine Or.inr ⟨c, List.mem_cons_self c cs, ?_⟩
            simpa using h3
      · exact Or.inr ⟨c2, List.mem_cons_of_mem c hc2, hd⟩

/-- Claim C10 (confirmed).  Every order document the loader creates from
a contract has status exactly "pending", which is none of the three
`OrderStatus` values "pendiente"/"procesando"/"completado"; the
corresponding in-memory order raises only the "todas" bucket, leaves the
three per-status counts unchanged, and passes the status filter only
when the filter is "todas". -/
theorem loader_created_status :
    ∀ (dbOrders items : List OrderDoc) (contracts : List Contract) (now : String)
      (d : NewOrderData),
      d ∈ (runContractsPhase dbOrders items contracts now).created →
      d.status = "pending" ∧
      (d.status = "pendiente" ∨ d.status = "procesando" ∨ d.status = "completado" → False) ∧
      ∀ (i : String) (os : List OrderDoc) (sf search : String),
        countTodas (os ++ [toOrderDoc i d]) = countTodas os + 1 ∧
        (sf = "pendiente" ∨ sf = "procesando" ∨ sf = "completado" →
          countByStatus (os ++ [toOrderDoc i d]) sf = countByStatus os sf) ∧
        (sf = "todas" ∨ sf = "pendiente" ∨ sf = "procesando" ∨ sf = "completado" →
          toOrderDoc i d ∈ filteredOrders (os ++ [toOrderDoc i d]) sf search → sf = "todas") := by
  intro dbOrders items contracts now d hmem
  have hst : d.status = "pending" := by
    rcases loader_created_mem dbOrders items now contracts ⟨[], [], 0⟩ d hmem with h | ⟨c, -, hd⟩
    · cases h
    · rw [hd]
      rfl
  refine ⟨hst, ?_, ?_⟩
  · intro h
    rcases h with h | h | h <;> (rw [hst] at h; exact absurd h (by decide))
  · intro i os sf search
    have hg : (toOrderDoc i d).status = some "pending" := by
      show some d.status = some "pending"
      rw [hst]
    refine ⟨?_, ?_, ?_⟩
    · simp [countTodas]
    · intro hsf
      have hne : ((toOrderDoc i d).status == some sf) = false := by
        rw [hg]
        rcases hsf with h | h | h <;> (subst h; decide)
      unfold countByStatus
      rw [List.filter_append, List.length_append]
      have : List.filter (fun o => o.status == some sf) [toOrderDoc i d] = [] := by
        simp [List.filter, hne]
      rw [this]
      rfl
    · intro hsf hmemf
      obtain ⟨-, hpred⟩ := List.mem_filter.mp hmemf
      rw [Bool.and_eq_true] at hpred
      rcases Bool.or_eq_true _ _ |>.mp hpred.1 with h | h
      · exact of_decide_eq_true h
      · rw [hg] at h
        have hsome : (some ("pending" : String)) = some sf := beq_iff_eq.mp h
        have hsf2 : sf = "pending" := (Option.some.inj hsome).symm
        rcases hsf with h2 | h2 | h2 | h2
        · exact h2
        · rw [h2] at hsf2; exact absurd hsf2 (by decide)
        · rw [h2] at hsf2; exact absurd hsf2 (by decide)
        · rw [h2] at hsf2; exact absurd hsf2 (by decide)

/-- Claim C10 witness: the loader-created order of the C8 scenario. -/
theorem loader_created_status_witness :
    (orderFromContract c8cex "t0").status = "pending" ∧
    countByStatus ([] ++ [toOrderDoc "order-0" (orderFromContract c8cex "t0")]) "pendiente" =
      countByStatus [] "pendiente" := by
  obtain ⟨h1, -, h3⟩ := loader_created_status [] [] [c8cex] "t0"
    (orderFromContract c8cex "t0") (by decide)
  exact ⟨h1, (h3 "order-0" [] "pendiente" "").2.1 (Or.inl rfl)⟩

/-- Claim C8 (amended).  For contract `c8cex` (one store item, quantity
2, price 100) and an empty orders collection, one loader run creates
exactly one order, with `totalAmount = 200` and status "pending" but
with NO workflow — the loader does not attach the delivery category or
the "Entregar Album A" task (those appear only when the workflow panel
is opened, via `ensureDeliveryTasks`); a second run with the created
document present creates nothing. -/
theorem loader_scenario_once :
    (runContractsPhase [] [] [c8cex] "t0").created = [orderFromContract c8cex "t0"] ∧
    (orderFromContract c8cex "t0").totalAmount = 200 ∧
    (orderFromContract c8cex "t0").status = "pending" ∧
    (toOrderDoc (genOrderId 0) (orderFromContract c8cex "t0")).workflow = none ∧
    (runContractsPhase [c8doc] [c8doc] [c8cex] "t1").created = [] ∧
    (runContractsPhase [c8doc] [c8doc] [c8cex] "t1").generated = [] := by
  refine ⟨by decide, by decide, by decide, by decide, by decide, by decide⟩

/-- Claim C8 counterexample: the order the loader creates carries no
workflow at all, so it has no delivery category and no "Entregar Album
A" task, contrary to the claimed scenario. -/
theorem loader_scenario_no_workflow_cex :
    (runContractsPhase [] [] [c8cex] "t0").generated.map (fun g => g.workflow) = [none] := by
  decide

end OrdersManagement
